import Mathlib

/-!
Verification of the indicator-computation and panel-layout core of the stock
chart application (`src/app.py`, function `chart`).

The embedding is shallow:

* The dynamic panel bookkeeping of `chart` (lines 108-130 of `app.py`) is
  translated into the pure function `chartLayout` below, which records the
  `addplot` panel assignments, the panel-ratio list and the figure height of
  the `mpf.plot` call.
* The pandas indicator pipeline (lines 89-103) is translated into pure
  functions over `List K` for a linear ordered field `K`.  A pandas float
  column is modelled as a `List (FVal K)` where `FVal` adds the IEEE special
  values NaN and the two infinities to `K`; `FVal.nan` plays the role of a
  missing/NaN entry and the arithmetic on `FVal` follows the IEEE-754 rules
  for the operations the pipeline performs (exact arithmetic instead of
  rounding, which is the idealisation the design document itself uses).
-/

set_option autoImplicit false

/-- Values of a pandas float column: a number, NaN, or a signed infinity. -/
inductive FVal (K : Type) where
  | nan : FVal K
  | pinf : FVal K
  | ninf : FVal K
  | val : K → FVal K
deriving DecidableEq, Repr

namespace FVal

variable {K : Type} [LinearOrderedField K]

/-- IEEE-754 negation on column values. -/
def fneg : FVal K → FVal K
  | nan => nan
  | pinf => ninf
  | ninf => pinf
  | val x => val (-x)

/-- IEEE-754 addition on column values (`inf + (-inf) = nan`). -/
def fadd : FVal K → FVal K → FVal K
  | nan, _ => nan
  | _, nan => nan
  | pinf, ninf => nan
  | pinf, _ => pinf
  | ninf, pinf => nan
  | ninf, _ => ninf
  | val _, pinf => pinf
  | val _, ninf => ninf
  | val x, val y => val (x + y)

/-- IEEE-754 subtraction on column values. -/
def fsub (a b : FVal K) : FVal K := fadd a (fneg b)

/-- IEEE-754 multiplication by a finite scalar (`0 * inf = nan`). -/
def fscale (c : K) : FVal K → FVal K
  | nan => nan
  | pinf => if 0 < c then pinf else if c < 0 then ninf else nan
  | ninf => if 0 < c then ninf else if c < 0 then pinf else nan
  | val x => val (c * x)

/-- IEEE-754 division on column values: a nonzero number divided by zero is a
signed infinity, `0 / 0` is NaN, a number divided by an infinity is zero. -/
def fdiv : FVal K → FVal K → FVal K
  | nan, _ => nan
  | _, nan => nan
  | pinf, pinf => nan
  | pinf, ninf => nan
  | ninf, pinf => nan
  | ninf, ninf => nan
  | pinf, val y => if 0 ≤ y then pinf else ninf
  | ninf, val y => if 0 ≤ y then ninf else pinf
  | val _, pinf => val 0
  | val _, ninf => val 0
  | val x, val y =>
      if y = 0 then (if 0 < x then pinf else if x < 0 then ninf else nan)
      else val (x / y)

/-- Map a function over the finite part of a column value. -/
def fmap {K' : Type} (f : K → K') : FVal K → FVal K'
  | nan => nan
  | pinf => pinf
  | ninf => ninf
  | val x => val (f x)

end FVal

/-! ### Panel layout (`app.py` lines 108-142)

`chart` builds the `addplot` list `apds` and the ratio list `ratios` with a
running counter `current_panel`:

```python
current_panel = 2 if volume else 1
ratios = [6]
if volume: ratios.append(2)
if show_bb:   # two overlays on the main panel (make_addplot default panel 0)
    apds.append(... df['BB_Upper'] ...); apds.append(... df['BB_Lower'] ...)
if show_rsi:
    apds.append(... panel=current_panel ...); ratios.append(2); current_panel += 1
if show_macd:
    apds.append(MACD, panel=current_panel); apds.append(Signal, panel=current_panel)
    apds.append(Hist, panel=current_panel); ratios.append(2)
... figsize=(14, 8 + (len(ratios)*2)), panel_ratios=tuple(ratios), volume=volume ...
```

When `volume=True`, `mpf.plot` draws the volume bars on panel 1 (the source
comment `1: 거래량(고정)` records this fixed assignment). -/

/-- The kind of each `make_addplot` entry produced by `chart`. -/
inductive PlotKind where
  | bbUpper : PlotKind
  | bbLower : PlotKind
  | rsiLine : PlotKind
  | macdLine : PlotKind
  | signalLine : PlotKind
  | histBar : PlotKind
deriving DecidableEq, Repr

/-- Result of the dynamic panel construction of `chart`. -/
structure PanelLayout where
  volumePanel : Option Nat
  apds : List (PlotKind × Nat)
  ratios : List Nat
  height : Nat
deriving DecidableEq, Repr

/-- Shallow embedding of the panel bookkeeping of `chart`
(`app.py` lines 108-142). -/
def chartLayout (volume show_bb show_rsi show_macd : Bool) : PanelLayout :=
  let current_panel : Nat := if volume then 2 else 1
  let ratios : List Nat := if volume then [6, 2] else [6]
  let apds : List (PlotKind × Nat) :=
    if show_bb then [(PlotKind.bbUpper, 0), (PlotKind.bbLower, 0)] else []
  let st :=
    if show_rsi then
      (apds ++ [(PlotKind.rsiLine, current_panel)], ratios ++ [2], current_panel + 1)
    else (apds, ratios, current_panel)
  let st2 :=
    if show_macd then
      (st.1 ++ [(PlotKind.macdLine, st.2.2), (PlotKind.signalLine, st.2.2),
                (PlotKind.histBar, st.2.2)], st.2.1 ++ [2])
    else (st.1, st.2.1)
  { volumePanel := if volume then some 1 else none
    apds := st2.1
    ratios := st2.2
    height := 8 + st2.2.length * 2 }

/-- Number of true flags among the three panel-creating toggles. -/
def truePanelFlags (volume show_rsi show_macd : Bool) : Nat :=
  (if volume then 1 else 0) + (if show_rsi then 1 else 0) + (if show_macd then 1 else 0)


/-! ### Indicator pipeline (`app.py` lines 89-105)

```python
df['MA20'] = df['Close'].rolling(window=20).mean()
df['std'] = df['Close'].rolling(window=20).std()
df['BB_Upper'] = df['MA20'] + (df['std'] * 2)
df['BB_Lower'] = df['MA20'] - (df['std'] * 2)
delta = df['Close'].diff()
gain = (delta.where(delta > 0, 0)).rolling(window=14).mean()
loss = (-delta.where(delta < 0, 0)).rolling(window=14).mean()
df['RSI'] = 100 - (100 / (1 + (gain / loss)))
exp1 = df['Close'].ewm(span=12, adjust=False).mean()
exp2 = df['Close'].ewm(span=26, adjust=False).mean()
df['MACD'] = exp1 - exp2
df['Signal'] = df['MACD'].ewm(span=9, adjust=False).mean()
df['Hist'] = df['MACD'] - df['Signal']
df = df.iloc[-ndays:]
```

A rolling aggregation with window `w` (default `min_periods = w`) yields NaN at
position `i` when fewer than `w` rows exist up to `i`, and otherwise applies
the aggregator to the last `w` values ending at `i`. -/

section Indicators

variable {K : Type} [LinearOrderedField K]

/-- The `w` values of `l` ending at index `i` (pandas rolling window;
shorter than `w` when fewer than `w` rows exist up to `i`). -/
def window (w i : ℕ) (l : List K) : List K := (l.take (i + 1)).drop (i + 1 - w)

/-- Arithmetic mean of a list (pandas `.mean()` for a full window). -/
def mean (l : List K) : K := l.sum / (l.length : K)

/-- Sample variance with `ddof = 1` (the square of pandas `.std()` for a full
window): `sum ((x - mean)^2) / (n - 1)`. -/
def sampleVar (l : List K) : K :=
  (l.map (fun x => (x - mean l) * (x - mean l))).sum / ((l.length : K) - 1)

/-- Pandas `Series.rolling(window=w)` followed by an aggregation `f`:
NaN until `w` rows have accumulated, afterwards `f` of the trailing window. -/
def rollingApply (w : ℕ) (f : List K → K) (l : List K) : List (FVal K) :=
  (List.range l.length).map
    (fun i => if i + 1 < w then FVal.nan else FVal.val (f (window w i l)))

/-- Pandas `Series.rolling(window=w).mean()`. -/
def rollingMean (w : ℕ) (l : List K) : List (FVal K) := rollingApply w mean l

/-- Square of `Series.rolling(window=w).std()` (the std column itself is the
pointwise nonnegative square root of this column, which is irrational in
general and therefore kept in squared form in the embedding). -/
def rollingVarCol (w : ℕ) (l : List K) : List (FVal K) := rollingApply w sampleVar l

/-- Source line `df['MA20'] = df['Close'].rolling(window=20).mean()`. -/
def ma20Col (close : List K) : List (FVal K) := rollingMean 20 close

/-- Square of `df['std'] = df['Close'].rolling(window=20).std()`. -/
def stdSqCol (close : List K) : List (FVal K) := rollingVarCol 20 close

/-- Source line `df['BB_Upper'] = df['MA20'] + (df['std'] * 2)`, as a function of the MA
column and the std column. -/
def bbUpperCol (ma sd : List (FVal K)) : List (FVal K) :=
  List.zipWith (fun a s => FVal.fadd a (FVal.fscale 2 s)) ma sd

/-- Source line `df['BB_Lower'] = df['MA20'] - (df['std'] * 2)`. -/
def bbLowerCol (ma sd : List (FVal K)) : List (FVal K) :=
  List.zipWith (fun a s => FVal.fsub a (FVal.fscale 2 s)) ma sd

/-- Source line `delta = df['Close'].diff()`: NaN at index 0, consecutive difference
afterwards. -/
def deltaCol : List K → List (Option K)
  | [] => []
  | x :: xs => none :: List.zipWith (fun a b => some (b - a)) (x :: xs) xs

/-- Expression `delta.where(delta > 0, 0)`: keeps a positive difference, replaces
everything else — including the NaN at index 0 — by 0. -/
def gainRaw (close : List K) : List K :=
  (deltaCol close).map (fun d =>
    match d with
    | some d => if 0 < d then d else 0
    | none => 0)

/-- Expression `-delta.where(delta < 0, 0)`: the negated negative differences, with
everything else — including the NaN at index 0 — replaced by 0. -/
def lossRaw (close : List K) : List K :=
  (deltaCol close).map (fun d =>
    match d with
    | some d => if d < 0 then -d else 0
    | none => 0)

/-- Source line `gain = (delta.where(delta > 0, 0)).rolling(window=14).mean()`. -/
def gainCol (close : List K) : List (FVal K) := rollingMean 14 (gainRaw close)

/-- Source line `loss = (-delta.where(delta < 0, 0)).rolling(window=14).mean()`. -/
def lossCol (close : List K) : List (FVal K) := rollingMean 14 (lossRaw close)

/-- Source line `df['RSI'] = 100 - (100 / (1 + (gain / loss)))`, with IEEE semantics for
the division when the average loss is zero. -/
def rsiCol (close : List K) : List (FVal K) :=
  List.zipWith
    (fun g l =>
      FVal.fsub (FVal.val 100)
        (FVal.fdiv (FVal.val 100) (FVal.fadd (FVal.val 1) (FVal.fdiv g l))))
    (gainCol close) (lossCol close)

/-- Tail of the `adjust=False` exponentially weighted mean: `prev` is the
previous EWMA value, `a` the smoothing factor. -/
def ewmaGo (a : K) : K → List K → List K
  | _, [] => []
  | prev, y :: ys =>
      (a * y + (1 - a) * prev) :: ewmaGo a (a * y + (1 - a) * prev) ys

/-- Pandas `Series.ewm(span=s, adjust=False).mean()`: `e[0] = x[0]` and
`e[i] = a*x[i] + (1-a)*e[i-1]` with `a = 2/(s+1)`. -/
def ewmaCol (span : ℕ) (close : List K) : List K :=
  match close with
  | [] => []
  | x :: rest => x :: ewmaGo (2 / ((span : K) + 1)) x rest

/-- Source line `df['MACD'] = exp1 - exp2` with `exp1 = ewm(span=12)`, `exp2 = ewm(span=26)`. -/
def macdCol (close : List K) : List K :=
  List.zipWith (fun a b => a - b) (ewmaCol 12 close) (ewmaCol 26 close)

/-- Source line `df['Signal'] = df['MACD'].ewm(span=9, adjust=False).mean()`. -/
def signalCol (close : List K) : List K := ewmaCol 9 (macdCol close)

/-- Source line `df['Hist'] = df['MACD'] - df['Signal']`. -/
def histCol (close : List K) : List K :=
  List.zipWith (fun a b => a - b) (macdCol close) (signalCol close)

/-- The RSI pointwise expression `100 - 100/(1 + g/l)` on column values. -/
def rsiEntry (g l : FVal K) : FVal K :=
  FVal.fsub (FVal.val 100)
    (FVal.fdiv (FVal.val 100) (FVal.fadd (FVal.val 1) (FVal.fdiv g l)))

end Indicators

/-- Source line `df.iloc[-n:]` for `n ≥ 1`: the trailing `n` rows (all rows when `n`
exceeds the length).  Guarded for `n = 0` where Python slicing keeps the
whole frame. -/
def ilocLast {α : Type} (n : ℕ) (l : List α) : List α :=
  if n = 0 then l else l.drop (l.length - n)

/-- A 14-row close series whose first delta is a loss: closes 2, 1, then
strictly rising. -/
def qs14 : List ℚ := [2, 1, 2, 3, 4, 5, 6, 7, 8, 9, 10, 11, 12, 13]

/-- A strictly increasing 15-row close series (all gains, no losses). -/
def up15 : List ℚ := [1, 2, 3, 4, 5, 6, 7, 8, 9, 10, 11, 12, 13, 14, 15]

/- Batteries marks the `Rat` field operations `@[irreducible]`, which blocks
evaluation of concrete rational instances inside `decide`; restoring the
default reducibility (locally, for this file) is soundness-neutral since the
kernel ignores reducibility attributes. -/
attribute [local semireducible] Rat.add Rat.sub Rat.mul Rat.inv

/-- C1: panel indices are assigned in the fixed priority order
volume → rsi → macd.  Volume, when enabled, sits on panel 1 and pushes the
next-free-panel counter to 2 (the counter stays at 1 when volume is disabled);
RSI takes the current counter value and increments it; MACD, Signal and
Histogram all take the then-current counter value.  In particular the flags
(volume=false, rsi=true, macd=true) put RSI on panel 1 and MACD on panel 2. -/
theorem panel_indices_priority_order : ∀ v b r m : Bool,
    ((chartLayout v b r m).volumePanel = if v then some 1 else none) ∧
    ((chartLayout v b r m).apds =
      (if b then [(PlotKind.bbUpper, 0), (PlotKind.bbLower, 0)] else []) ++
      (if r then [(PlotKind.rsiLine, if v then 2 else 1)] else []) ++
      (if m then
        [(PlotKind.macdLine, (if v then 2 else 1) + (if r then 1 else 0)),
         (PlotKind.signalLine, (if v then 2 else 1) + (if r then 1 else 0)),
         (PlotKind.histBar, (if v then 2 else 1) + (if r then 1 else 0))]
       else [])) ∧
    ((chartLayout false b true true).apds =
      (if b then [(PlotKind.bbUpper, 0), (PlotKind.bbLower, 0)] else []) ++
      [(PlotKind.rsiLine, 1), (PlotKind.macdLine, 2), (PlotKind.signalLine, 2),
       (PlotKind.histBar, 2)]) := by
  decide

/-- C2: the ratio list is always `[6]` followed by a `2` for each enabled
panel-creating flag in the fixed order volume, rsi, macd; its length is
`1 + (number of true flags among volume, rsi, macd)`; and the Bollinger flag
never changes the ratio list. -/
theorem panel_ratios_structure : ∀ v b r m : Bool,
    ((chartLayout v b r m).ratios =
      [6] ++ (if v then [2] else []) ++ (if r then [2] else []) ++
      (if m then [2] else [])) ∧
    ((chartLayout v b r m).ratios.length = 1 + truePanelFlags v r m) ∧
    ((chartLayout v true r m).ratios = (chartLayout v false r m).ratios) := by
  decide

/-- C3: the figure-height multiplier equals `8 + 2 * (length of the ratio
list)`; with all four flags false the ratio list is `[6]` and the height
multiplier is 10. -/
theorem figure_height_formula : ∀ v b r m : Bool,
    ((chartLayout v b r m).height = 8 + 2 * (chartLayout v b r m).ratios.length) ∧
    ((chartLayout false false false false).ratios = [6]) ∧
    ((chartLayout false false false false).height = 10) := by
  decide

section RollingLemmas

variable {K : Type} [LinearOrderedField K]

theorem rollingApply_length (w : ℕ) (f : List K → K) (l : List K) :
    (rollingApply w f l).length = l.length := by
  simp [rollingApply]

theorem rollingApply_getD (w : ℕ) (f : List K → K) (l : List K) (i : ℕ) :
    (rollingApply w f l).getD i FVal.nan =
      if w ≤ i + 1 ∧ i < l.length then FVal.val (f (window w i l)) else FVal.nan := by
  rw [List.getD_eq_getElem?_getD, rollingApply]
  rcases lt_or_le i l.length with h | h
  · rw [List.getElem?_map, List.getElem?_range h]
    simp only [Option.map_some', Option.getD_some]
    by_cases hw : i + 1 < w
    · rw [if_pos hw, if_neg (by omega)]
    · rw [if_neg hw, if_pos ⟨by omega, h⟩]
  · rw [List.getElem?_eq_none (by simpa using h), if_neg (by omega)]
    rfl

theorem deltaCol_length (l : List K) : (deltaCol l).length = l.length := by
  cases l with
  | nil => rfl
  | cons x xs => simp [deltaCol]

theorem gainRaw_length (close : List K) : (gainRaw close).length = close.length := by
  simp [gainRaw, deltaCol_length]

theorem lossRaw_length (close : List K) : (lossRaw close).length = close.length := by
  simp [lossRaw, deltaCol_length]

theorem gainCol_length (close : List K) : (gainCol close).length = close.length := by
  rw [gainCol, rollingMean, rollingApply_length, gainRaw_length]

theorem lossCol_length (close : List K) : (lossCol close).length = close.length := by
  rw [lossCol, rollingMean, rollingApply_length, lossRaw_length]

theorem ma20Col_length (close : List K) : (ma20Col close).length = close.length := by
  rw [ma20Col, rollingMean, rollingApply_length]

theorem stdSqCol_length (close : List K) : (stdSqCol close).length = close.length := by
  rw [stdSqCol, rollingVarCol, rollingApply_length]

theorem rsiCol_length (close : List K) : (rsiCol close).length = close.length := by
  rw [rsiCol, List.length_zipWith, gainCol_length, lossCol_length]
  omega

theorem zipWith_getD {α β γ : Type} (f : α → β → γ) (xs : List α) (ys : List β)
    (i : ℕ) (hx : i < xs.length) (hy : i < ys.length) (dx : α) (dy : β) (dz : γ) :
    (List.zipWith f xs ys).getD i dz = f (xs.getD i dx) (ys.getD i dy) := by
  rw [List.getD_eq_getElem?_getD, List.getElem?_zipWith,
      List.getElem?_eq_getElem hx, List.getElem?_eq_getElem hy,
      List.getD_eq_getElem?_getD xs, List.getElem?_eq_getElem hx,
      List.getD_eq_getElem?_getD ys, List.getElem?_eq_getElem hy]
  rfl

theorem mean_nonneg {l : List K} (h : ∀ y ∈ l, 0 ≤ y) : 0 ≤ mean l :=
  div_nonneg (List.sum_nonneg h) (Nat.cast_nonneg _)

theorem gainRaw_nonneg (close : List K) : ∀ y ∈ gainRaw close, 0 ≤ y := by
  intro y hy
  rw [gainRaw, List.mem_map] at hy
  obtain ⟨d, _, rfl⟩ := hy
  cases d with
  | none => exact le_refl 0
  | some d =>
    dsimp only
    split
    · next hd => exact le_of_lt hd
    · exact le_refl 0

theorem lossRaw_nonneg (close : List K) : ∀ y ∈ lossRaw close, 0 ≤ y := by
  intro y hy
  rw [lossRaw, List.mem_map] at hy
  obtain ⟨d, _, rfl⟩ := hy
  cases d with
  | none => exact le_refl 0
  | some d =>
    dsimp only
    split
    · next hd => exact neg_nonneg.mpr (le_of_lt hd)
    · exact le_refl 0

theorem window_forall {P : K → Prop} {l : List K} (h : ∀ y ∈ l, P y) (w i : ℕ) :
    ∀ y ∈ window w i l, P y := fun y hy =>
  h y (List.mem_of_mem_take (List.mem_of_mem_drop hy))

theorem sampleVar_nonneg (l : List K) : 0 ≤ sampleVar l := by
  have hnum : 0 ≤ (l.map fun x => (x - mean l) * (x - mean l)).sum := by
    apply List.sum_nonneg
    intro y hy
    obtain ⟨x, _, rfl⟩ := List.mem_map.mp hy
    exact mul_self_nonneg _
  cases l with
  | nil => simp [sampleVar]
  | cons x xs =>
    apply div_nonneg hnum
    have h1 : 1 ≤ (x :: xs).length := by simp
    have : (1 : K) ≤ ((x :: xs).length : K) := by exact_mod_cast h1
    linarith

end RollingLemmas

section EntryLemmas

variable {K : Type} [LinearOrderedField K]


theorem rsiCol_eq_zipWith (close : List K) :
    rsiCol close = List.zipWith rsiEntry (gainCol close) (lossCol close) := rfl

theorem rsiEntry_nan_left (b : FVal K) : rsiEntry FVal.nan b = FVal.nan := by
  cases b <;> rfl

theorem rsiEntry_nan_right (a : FVal K) : rsiEntry a FVal.nan = FVal.nan := by
  cases a <;> rfl

theorem rsiEntry_val {g l : K} (hg : 0 ≤ g) (hl : 0 < l) :
    rsiEntry (FVal.val g) (FVal.val l) = FVal.val (100 - 100 / (1 + g / l)) := by
  have hgl : 0 ≤ g / l := div_nonneg hg hl.le
  have h1 : ¬(1 + g / l = 0) := by positivity
  rw [rsiEntry]
  rw [show FVal.fdiv (FVal.val g) (FVal.val l) = FVal.val (g / l) by
    simp [FVal.fdiv, hl.ne']]
  rw [show FVal.fadd (FVal.val (1 : K)) (FVal.val (g / l)) = FVal.val (1 + g / l) from rfl]
  rw [show FVal.fdiv (FVal.val (100 : K)) (FVal.val (1 + g / l)) =
      FVal.val (100 / (1 + g / l)) by simp [FVal.fdiv, h1]]
  rw [show FVal.fsub (FVal.val (100 : K)) (FVal.val (100 / (1 + g / l))) =
      FVal.val (100 - 100 / (1 + g / l)) by
    simp [FVal.fsub, FVal.fadd, FVal.fneg, sub_eq_add_neg]]

theorem rsiEntry_zero_loss {g : K} (hg : 0 ≤ g) :
    rsiEntry (FVal.val g) (FVal.val 0) = (if 0 < g then FVal.val 100 else FVal.nan) := by
  by_cases h : 0 < g
  · rw [if_pos h, rsiEntry]
    rw [show FVal.fdiv (FVal.val g) (FVal.val (0 : K)) = FVal.pinf by
      simp [FVal.fdiv, h]]
    rw [show FVal.fadd (FVal.val (1 : K)) (FVal.pinf : FVal K) = FVal.pinf from rfl]
    rw [show FVal.fdiv (FVal.val (100 : K)) (FVal.pinf : FVal K) = FVal.val 0 from rfl]
    rw [show FVal.fsub (FVal.val (100 : K)) (FVal.val (0 : K)) = FVal.val 100 by
      simp [FVal.fsub, FVal.fadd, FVal.fneg]]
  · have hg0 : g = 0 := le_antisymm (not_lt.mp h) hg
    subst hg0
    rw [if_neg h, rsiEntry]
    rw [show FVal.fdiv (FVal.val (0 : K)) (FVal.val (0 : K)) = FVal.nan by
      simp [FVal.fdiv]]
    rfl

/-- Characterisation of a defined `gain` entry: the index is past the 14-row
warm-up, and the value is the (nonnegative) mean of the trailing window of
zero-floored deltas. -/
theorem gainCol_val {close : List K} {i : ℕ} {g : K}
    (h : (gainCol close).getD i FVal.nan = FVal.val g) :
    (14 ≤ i + 1 ∧ i < close.length) ∧ g = mean (window 14 i (gainRaw close)) ∧ 0 ≤ g := by
  rw [gainCol, rollingMean, rollingApply_getD] at h
  split at h
  · next hc =>
    injection h with h'
    refine ⟨⟨hc.1, by rw [gainRaw_length] at hc; exact hc.2⟩, h'.symm, ?_⟩
    rw [← h']
    exact mean_nonneg (window_forall (gainRaw_nonneg close) 14 i)
  · exact absurd h (by simp)

theorem lossCol_val {close : List K} {i : ℕ} {l : K}
    (h : (lossCol close).getD i FVal.nan = FVal.val l) :
    (14 ≤ i + 1 ∧ i < close.length) ∧ l = mean (window 14 i (lossRaw close)) ∧ 0 ≤ l := by
  rw [lossCol, rollingMean, rollingApply_getD] at h
  split at h
  · next hc =>
    injection h with h'
    refine ⟨⟨hc.1, by rw [lossRaw_length] at hc; exact hc.2⟩, h'.symm, ?_⟩
    rw [← h']
    exact mean_nonneg (window_forall (lossRaw_nonneg close) 14 i)
  · exact absurd h (by simp)

theorem rsiCol_getD_entry (close : List K) (i : ℕ) (hi : i < close.length) :
    (rsiCol close).getD i FVal.nan =
      rsiEntry ((gainCol close).getD i FVal.nan) ((lossCol close).getD i FVal.nan) := by
  rw [rsiCol_eq_zipWith]
  exact zipWith_getD rsiEntry (gainCol close) (lossCol close) i
    (by rw [gainCol_length]; exact hi) (by rw [lossCol_length]; exact hi)
    FVal.nan FVal.nan FVal.nan

/-- Every entry of a rolling column is either NaN or a defined value. -/
theorem rollingApply_getD_cases (w : ℕ) (f : List K → K) (l : List K) (i : ℕ) :
    (rollingApply w f l).getD i FVal.nan = FVal.nan ∨
    ∃ g : K, (rollingApply w f l).getD i FVal.nan = FVal.val g := by
  rw [rollingApply_getD]
  split
  · exact Or.inr ⟨_, rfl⟩
  · exact Or.inl rfl

end EntryLemmas

/-- C5 (corrected): wherever the average loss is defined and nonzero,
`RSI[i] = 100 - 100/(1 + avgGain[i]/avgLoss[i])`; but the rolling averages of
gains and losses are first defined at index 13, not 14, because
`delta.where(delta > 0, 0)` replaces the undefined first delta by 0, so the
14-row window is already full at index 13. -/
theorem rsi_formula_and_first_defined (K : Type) [LinearOrderedField K]
    (close : List K) (i : ℕ) :
    (∀ g l : K, (gainCol close).getD i FVal.nan = FVal.val g →
        (lossCol close).getD i FVal.nan = FVal.val l → l ≠ 0 →
        (rsiCol close).getD i FVal.nan = FVal.val (100 - 100 / (1 + g / l))) ∧
    ((gainCol close).getD i FVal.nan ≠ FVal.nan ↔ 13 ≤ i ∧ i < close.length) ∧
    ((lossCol close).getD i FVal.nan ≠ FVal.nan ↔ 13 ≤ i ∧ i < close.length) := by
  refine ⟨?_, ?_, ?_⟩
  · intro g l hg hl hlne
    obtain ⟨⟨_, hi⟩, _, hgnn⟩ := gainCol_val hg
    obtain ⟨_, _, hlnn⟩ := lossCol_val hl
    have hlpos : 0 < l := lt_of_le_of_ne hlnn (Ne.symm hlne)
    rw [rsiCol_getD_entry close i hi, hg, hl, rsiEntry_val hgnn hlpos]
  · rw [gainCol, rollingMean, rollingApply_getD]
    by_cases hc : 14 ≤ i + 1 ∧ i < (gainRaw close).length
    · rw [if_pos hc]
      exact iff_of_true (by simp)
        ⟨by omega, by rw [gainRaw_length] at hc; exact hc.2⟩
    · rw [if_neg hc]
      rw [gainRaw_length] at hc
      exact iff_of_false (by simp) (by omega)
  · rw [lossCol, rollingMean, rollingApply_getD]
    by_cases hc : 14 ≤ i + 1 ∧ i < (lossRaw close).length
    · rw [if_pos hc]
      exact iff_of_true (by simp)
        ⟨by omega, by rw [lossRaw_length] at hc; exact hc.2⟩
    · rw [if_neg hc]
      rw [lossRaw_length] at hc
      exact iff_of_false (by simp) (by omega)

/-- C5 counterexample: on the 14-row series `qs14` the rolling averages are
already defined at index 13 (avgGain = 6/7, avgLoss = 1/14) and the RSI value
there is the defined number 1200/13 — the first defined RSI entry is at index
13, not 14 as claimed. -/
theorem rsi_first_defined_counterexample :
    (gainCol qs14).getD 13 FVal.nan = FVal.val (6 / 7) ∧
    (lossCol qs14).getD 13 FVal.nan = FVal.val (1 / 14) ∧
    (rsiCol qs14).getD 13 FVal.nan = FVal.val (1200 / 13) ∧
    FVal.val ((1200 : ℚ) / 13) ≠ FVal.nan :=
  ⟨by decide, by decide, by decide, by decide⟩

/-- Witness for the corrected C5 statement at the concrete series `qs14`,
index 13. -/
theorem rsi_formula_and_first_defined_witness :
    (gainCol qs14).getD 13 FVal.nan = FVal.val (6 / 7) ∧
    (lossCol qs14).getD 13 FVal.nan = FVal.val (1 / 14) ∧
    ((1 : ℚ) / 14 ≠ 0) ∧
    (rsiCol qs14).getD 13 FVal.nan =
      FVal.val (100 - 100 / (1 + ((6 : ℚ) / 7) / (1 / 14))) :=
  ⟨by decide, by decide, by decide,
    (rsi_formula_and_first_defined ℚ qs14 13).1 (6 / 7) (1 / 14)
      (by decide) (by decide) (by decide)⟩

/-- C7 (corrected): when the average loss at a defined index is zero the
computation raises nothing, but no sentinel is stored in the RSI column: when
the average gain is positive the infinite ratio collapses arithmetically to
the plain finite value 100, and when the average gain is also zero the entry
is NaN (which rendering skips rather than treating as 100). -/
theorem rsi_zero_loss_saturation (K : Type) [LinearOrderedField K]
    (close : List K) (i : ℕ) (g : K)
    (hg : (gainCol close).getD i FVal.nan = FVal.val g)
    (hl : (lossCol close).getD i FVal.nan = FVal.val 0) :
    0 ≤ g ∧
      (rsiCol close).getD i FVal.nan = (if 0 < g then FVal.val 100 else FVal.nan) := by
  obtain ⟨⟨_, hi⟩, _, hgnn⟩ := gainCol_val hg
  refine ⟨hgnn, ?_⟩
  rw [rsiCol_getD_entry close i hi, hg, hl, rsiEntry_zero_loss hgnn]

/-- C7 counterexample: on the strictly increasing series `up15` the average
loss at index 14 is zero, yet the stored RSI entry is the plain finite value
100 — not an undefined/infinite sentinel. -/
theorem rsi_zero_loss_counterexample :
    (lossCol up15).getD 14 FVal.nan = FVal.val 0 ∧
    (rsiCol up15).getD 14 FVal.nan = FVal.val 100 ∧
    FVal.val (100 : ℚ) ≠ FVal.nan ∧
    FVal.val (100 : ℚ) ≠ FVal.pinf ∧
    FVal.val (100 : ℚ) ≠ FVal.ninf :=
  ⟨by decide, by decide, by decide, by decide, by decide⟩

/-- Witness for the corrected C7 statement at the strictly increasing series
`up15`, index 14 (average gain 1, average loss 0). -/
theorem rsi_zero_loss_saturation_witness :
    (gainCol up15).getD 14 FVal.nan = FVal.val 1 ∧
    (lossCol up15).getD 14 FVal.nan = FVal.val 0 ∧
    (0 ≤ (1 : ℚ) ∧
      (rsiCol up15).getD 14 FVal.nan =
        (if (0 : ℚ) < 1 then FVal.val 100 else FVal.nan)) :=
  ⟨by decide, by decide,
    rsi_zero_loss_saturation ℚ up15 14 1 (by decide) (by decide)⟩

/-- C10: every defined finite RSI entry lies in the band [0, 100]. -/
theorem rsi_bounded (K : Type) [LinearOrderedField K] (close : List K)
    (i : ℕ) (x : K)
    (h : (rsiCol close).getD i FVal.nan = FVal.val x) : 0 ≤ x ∧ x ≤ 100 := by
  have hi : i < close.length := by
    by_contra hge
    rw [List.getD_eq_getElem?_getD,
      List.getElem?_eq_none (by rw [rsiCol_length]; omega)] at h
    exact absurd h (by simp)
  rw [rsiCol_getD_entry close i hi] at h
  rcases rollingApply_getD_cases 14 mean (gainRaw close) i with hgnan | ⟨g, hgval⟩
  · rw [show (gainCol close).getD i FVal.nan = FVal.nan from hgnan,
      rsiEntry_nan_left] at h
    exact absurd h (by simp)
  · have hgval' : (gainCol close).getD i FVal.nan = FVal.val g := hgval
    rcases rollingApply_getD_cases 14 mean (lossRaw close) i with hlnan | ⟨l, hlval⟩
    · rw [hgval', show (lossCol close).getD i FVal.nan = FVal.nan from hlnan,
        rsiEntry_nan_right] at h
      exact absurd h (by simp)
    · have hlval' : (lossCol close).getD i FVal.nan = FVal.val l := hlval
      obtain ⟨_, _, hgnn⟩ := gainCol_val hgval'
      obtain ⟨_, _, hlnn⟩ := lossCol_val hlval'
      rw [hgval', hlval'] at h
      rcases eq_or_lt_of_le hlnn with hl0 | hlpos
      · rw [← hl0, rsiEntry_zero_loss hgnn] at h
        split at h
        · injection h with h'
          constructor <;> rw [← h'] <;> norm_num
        · exact absurd h (by simp)
      · rw [rsiEntry_val hgnn hlpos] at h
        injection h with h'
        have hgl : 0 ≤ g / l := div_nonneg hgnn hlpos.le
        have h1 : (1 : K) ≤ 1 + g / l := by linarith
        have ht0 : 0 < 100 / (1 + g / l) := by positivity
        have ht100 : 100 / (1 + g / l) ≤ 100 :=
          div_le_self (by norm_num) h1
        constructor <;> rw [← h'] <;> linarith

/-- Witness for C10 at the concrete series `qs14`, index 13. -/
theorem rsi_bounded_witness :
    (rsiCol qs14).getD 13 FVal.nan = FVal.val (1200 / 13) ∧
    (0 ≤ (1200 / 13 : ℚ) ∧ (1200 / 13 : ℚ) ≤ 100) :=
  ⟨by decide, rsi_bounded ℚ qs14 13 (1200 / 13) (by decide)⟩

section EwmaLemmas

variable {K : Type} [LinearOrderedField K]

theorem ewmaGo_length (a : K) : ∀ (p : K) (l : List K), (ewmaGo a p l).length = l.length
  | _, [] => rfl
  | p, y :: ys => by
    rw [ewmaGo]
    simp [ewmaGo_length a _ ys]

theorem ewmaCol_length (span : ℕ) (close : List K) :
    (ewmaCol span close).length = close.length := by
  cases close with
  | nil => rfl
  | cons x rest => simp [ewmaCol, ewmaGo_length]

theorem macdCol_length (close : List K) : (macdCol close).length = close.length := by
  rw [macdCol, List.length_zipWith, ewmaCol_length, ewmaCol_length]
  omega

theorem signalCol_length (close : List K) : (signalCol close).length = close.length := by
  rw [signalCol, ewmaCol_length, macdCol_length]

theorem histCol_length (close : List K) : (histCol close).length = close.length := by
  rw [histCol, List.length_zipWith, macdCol_length, signalCol_length]
  omega

theorem ewmaGo_getD (a : K) :
    ∀ (l : List K) (p : K) (i : ℕ), i < l.length →
      (p :: ewmaGo a p l).getD (i + 1) 0 =
        a * l.getD i 0 + (1 - a) * (p :: ewmaGo a p l).getD i 0
  | [], _, i, h => absurd h (by simp)
  | y :: ys, p, 0, _ => by
    rw [ewmaGo]
    simp
  | y :: ys, p, i + 1, h => by
    have ih := ewmaGo_getD a ys (a * y + (1 - a) * p) i (by simpa using h)
    rw [ewmaGo]
    simpa using ih

theorem ewmaCol_getD_succ (span : ℕ) (close : List K) (i : ℕ)
    (h : i + 1 < close.length) :
    (ewmaCol span close).getD (i + 1) 0 =
      2 / ((span : K) + 1) * close.getD (i + 1) 0 +
      (1 - 2 / ((span : K) + 1)) * (ewmaCol span close).getD i 0 := by
  cases close with
  | nil => simp at h
  | cons x rest =>
    have := ewmaGo_getD (2 / ((span : K) + 1)) rest x i (by simpa using h)
    rw [ewmaCol]
    simpa using this

end EwmaLemmas

/-- C6: MACD, Signal and Histogram are total columns of the same length as
the close series (defined from index 0 onward, no warm-up gap); each EWMA
column follows the `adjust=False` recurrence `e[0] = close[0]`,
`e[i] = a*close[i] + (1-a)*e[i-1]` with `a = 2/(span+1)`;
`MACD[i] = exp1[i] - exp2[i]` for spans 12 and 26 so `MACD[0] = 0`; Signal is
the span-9 EWMA of MACD under the same recurrence; and
`Hist[i] = MACD[i] - Signal[i]`. -/
theorem macd_family_recurrence (K : Type) [LinearOrderedField K] (close : List K) :
    ((macdCol close).length = close.length ∧
     (signalCol close).length = close.length ∧
     (histCol close).length = close.length) ∧
    (∀ span : ℕ, (ewmaCol span close).length = close.length) ∧
    (∀ span : ℕ, ∀ x : K, ∀ rest : List K,
      close = x :: rest → (ewmaCol span close).getD 0 0 = x) ∧
    (∀ span : ℕ, ∀ i : ℕ, i + 1 < close.length →
      (ewmaCol span close).getD (i + 1) 0 =
        2 / ((span : K) + 1) * close.getD (i + 1) 0 +
        (1 - 2 / ((span : K) + 1)) * (ewmaCol span close).getD i 0) ∧
    (∀ i : ℕ, i < close.length →
      (macdCol close).getD i 0 =
        (ewmaCol 12 close).getD i 0 - (ewmaCol 26 close).getD i 0) ∧
    (signalCol close = ewmaCol 9 (macdCol close)) ∧
    (∀ i : ℕ, i < close.length →
      (histCol close).getD i 0 = (macdCol close).getD i 0 - (signalCol close).getD i 0) ∧
    (close ≠ [] → (macdCol close).getD 0 0 = 0) := by
  refine ⟨⟨macdCol_length close, signalCol_length close, histCol_length close⟩,
    fun span => ewmaCol_length span close, ?_, fun span i h => ewmaCol_getD_succ span close i h,
    ?_, rfl, ?_, ?_⟩
  · intro span x rest hx
    subst hx
    rw [ewmaCol]
    simp
  · intro i hi
    rw [macdCol]
    exact zipWith_getD (fun a b => a - b) _ _ i
      (by rw [ewmaCol_length]; exact hi) (by rw [ewmaCol_length]; exact hi) 0 0 0
  · intro i hi
    rw [histCol]
    exact zipWith_getD (fun a b => a - b) _ _ i
      (by rw [macdCol_length]; exact hi) (by rw [signalCol_length]; exact hi) 0 0 0
  · intro hne
    cases close with
    | nil => exact absurd rfl hne
    | cons x rest =>
      have h0 : 0 < (x :: rest).length := by simp
      rw [macdCol, zipWith_getD (fun a b => a - b) _ _ 0
        (by rw [ewmaCol_length]; exact h0) (by rw [ewmaCol_length]; exact h0) 0 0 0]
      rw [show (ewmaCol 12 (x :: rest)).getD 0 0 = x by rw [ewmaCol]; simp]
      rw [show (ewmaCol 26 (x :: rest)).getD 0 0 = x by rw [ewmaCol]; simp]
      exact sub_self x

/-- Witness for C6: on the two-row series `[1, 2]` the MACD value at index 0
is 0. -/
theorem macd_family_recurrence_witness :
    ([(1 : ℚ), 2] ≠ []) ∧ (macdCol [(1 : ℚ), 2]).getD 0 0 = 0 :=
  ⟨by decide, (macd_family_recurrence ℚ [1, 2]).2.2.2.2.2.2.2 (by decide)⟩

theorem fadd_nan_left {K : Type} [LinearOrderedField K] (b : FVal K) :
    FVal.fadd FVal.nan b = FVal.nan := by
  cases b <;> rfl

theorem fsub_nan_left {K : Type} [LinearOrderedField K] (b : FVal K) :
    FVal.fsub FVal.nan b = FVal.nan := by
  rw [FVal.fsub]
  exact fadd_nan_left _

/-- C8 (corrected): for an input with fewer than 2 rows every *windowed*
indicator column (MA20, std, both Bollinger bands, RSI) is entirely
undefined, and the EWMA-based columns are total: empty for an empty input and
the defined value `[0]` for a one-row input.  All columns are total functions
— nothing raises. -/
theorem short_series_windowed_undefined (K : Type) [LinearOrderedField K]
    (close : List K) (h : close.length < 2) :
    (∀ v ∈ ma20Col close, v = FVal.nan) ∧
    (∀ v ∈ stdSqCol close, v = FVal.nan) ∧
    (∀ sd : List (FVal K), ∀ v ∈ bbUpperCol (ma20Col close) sd, v = FVal.nan) ∧
    (∀ sd : List (FVal K), ∀ v ∈ bbLowerCol (ma20Col close) sd, v = FVal.nan) ∧
    (∀ v ∈ rsiCol close, v = FVal.nan) ∧
    (close = [] → macdCol close = [] ∧ signalCol close = [] ∧ histCol close = []) ∧
    (∀ c : K, close = [c] →
      macdCol close = [0] ∧ signalCol close = [0] ∧ histCol close = [0]) := by
  rcases close with _ | ⟨c, _ | ⟨d, rest⟩⟩
  · refine ⟨?_, ?_, ?_, ?_, ?_, ?_, ?_⟩
    · simp [ma20Col, rollingMean, rollingApply]
    · simp [stdSqCol, rollingVarCol, rollingApply]
    · intro sd v hv
      simp [bbUpperCol, ma20Col, rollingMean, rollingApply] at hv
    · intro sd v hv
      simp [bbLowerCol, ma20Col, rollingMean, rollingApply] at hv
    · simp [rsiCol_eq_zipWith, gainCol, rollingMean, rollingApply, gainRaw, deltaCol]
    · exact fun _ => ⟨rfl, rfl, rfl⟩
    · intro c hc
      exact absurd hc (by simp)
  · have hma : ma20Col [c] = [FVal.nan] := by
      simp [ma20Col, rollingMean, rollingApply, show List.range 1 = [0] from rfl]
    have hstd : stdSqCol [c] = [FVal.nan] := by
      simp [stdSqCol, rollingVarCol, rollingApply, show List.range 1 = [0] from rfl]
    have hgain : gainCol [c] = [FVal.nan] := by
      simp [gainCol, rollingMean, rollingApply, gainRaw, deltaCol, show List.range 1 = [0] from rfl]
    have hloss : lossCol [c] = [FVal.nan] := by
      simp [lossCol, rollingMean, rollingApply, lossRaw, deltaCol, show List.range 1 = [0] from rfl]
    have hmacd : macdCol [c] = [0] := by
      simp [macdCol, ewmaCol, ewmaGo]
    have hsignal : signalCol [c] = [0] := by
      rw [signalCol, hmacd]
      simp [ewmaCol, ewmaGo]
    have hhist : histCol [c] = [0] := by
      rw [histCol, hmacd, hsignal]
      simp
    refine ⟨?_, ?_, ?_, ?_, ?_, ?_, ?_⟩
    · rw [hma]; simp
    · rw [hstd]; simp
    · intro sd v hv
      rw [hma] at hv
      cases sd with
      | nil => simp [bbUpperCol] at hv
      | cons s ss =>
        rw [show bbUpperCol [FVal.nan] (s :: ss) =
            [FVal.fadd FVal.nan (FVal.fscale 2 s)] from rfl, fadd_nan_left] at hv
        simpa using hv
    · intro sd v hv
      rw [hma] at hv
      cases sd with
      | nil => simp [bbLowerCol] at hv
      | cons s ss =>
        rw [show bbLowerCol [FVal.nan] (s :: ss) =
            [FVal.fsub FVal.nan (FVal.fscale 2 s)] from rfl, fsub_nan_left] at hv
        simpa using hv
    · rw [rsiCol_eq_zipWith, hgain, hloss,
        show List.zipWith rsiEntry [(FVal.nan : FVal K)] [(FVal.nan : FVal K)] =
          [rsiEntry FVal.nan FVal.nan] from rfl, rsiEntry_nan_left]
      simp
    · intro hc
      exact absurd hc (by simp)
    · intro e he
      injection he with he1 _
      subst he1
      exact ⟨hmacd, hsignal, hhist⟩
  · simp at h
    omega
/-- C8 counterexample: for the one-row series `[5]` the MACD, Signal and
Histogram columns are the defined value `[0]` — not entirely undefined as the
claim states for inputs with fewer than 2 rows. -/
theorem short_series_macd_defined_counterexample :
    macdCol [(5 : ℚ)] = [0] ∧ signalCol [(5 : ℚ)] = [0] ∧
    histCol [(5 : ℚ)] = [0] ∧ (macdCol [(5 : ℚ)]).length = 1 :=
  ⟨by decide, by decide, by decide, by decide⟩

/-- Witness for the corrected C8 statement at the one-row series `[5]`. -/
theorem short_series_windowed_undefined_witness :
    ([(5 : ℚ)].length < 2) ∧ (∀ v ∈ ma20Col [(5 : ℚ)], v = FVal.nan) :=
  ⟨by decide, (short_series_windowed_undefined ℚ [5] (by decide)).1⟩

theorem ilocLast_length {α : Type} (n : ℕ) (l : List α) (h1 : 1 ≤ n)
    (h2 : n ≤ l.length) : (ilocLast n l).length = n := by
  rw [ilocLast, if_neg (by omega), List.length_drop]
  omega

theorem ilocLast_getD {α : Type} (n : ℕ) (l : List α) (d : α) (h1 : 1 ≤ n)
    (j : ℕ) : (ilocLast n l).getD j d = l.getD (l.length - n + j) d := by
  rw [ilocLast, if_neg (by omega), List.getD_eq_getElem?_getD, List.getElem?_drop,
    List.getD_eq_getElem?_getD]

/-- C9: the engine computes every indicator column over the full fetched
series and only then truncates with `df.iloc[-ndays:]`; when the fetched
series has at least `ndays ≥ 1` rows, the visible close series and every
visible indicator column have exactly `ndays` entries, and each visible entry
equals the full-range entry at the corresponding position
`close.length - ndays + j`. -/
theorem truncate_after_compute (K : Type) [LinearOrderedField K]
    (close : List K) (ndays : ℕ) (h1 : 1 ≤ ndays) (h2 : ndays ≤ close.length) :
    ((ilocLast ndays close).length = ndays ∧
     (ilocLast ndays (ma20Col close)).length = ndays ∧
     (ilocLast ndays (stdSqCol close)).length = ndays ∧
     (ilocLast ndays (rsiCol close)).length = ndays ∧
     (ilocLast ndays (macdCol close)).length = ndays ∧
     (ilocLast ndays (signalCol close)).length = ndays ∧
     (ilocLast ndays (histCol close)).length = ndays) ∧
    (∀ sd : List (FVal K), sd.length = close.length →
      (ilocLast ndays (bbUpperCol (ma20Col close) sd)).length = ndays ∧
      (ilocLast ndays (bbLowerCol (ma20Col close) sd)).length = ndays ∧
      (∀ j : ℕ, (ilocLast ndays (bbUpperCol (ma20Col close) sd)).getD j FVal.nan =
        (bbUpperCol (ma20Col close) sd).getD (close.length - ndays + j) FVal.nan) ∧
      (∀ j : ℕ, (ilocLast ndays (bbLowerCol (ma20Col close) sd)).getD j FVal.nan =
        (bbLowerCol (ma20Col close) sd).getD (close.length - ndays + j) FVal.nan)) ∧
    (∀ j : ℕ, (ilocLast ndays close).getD j 0 =
      close.getD (close.length - ndays + j) 0) ∧
    (∀ j : ℕ, (ilocLast ndays (ma20Col close)).getD j FVal.nan =
      (ma20Col close).getD (close.length - ndays + j) FVal.nan) ∧
    (∀ j : ℕ, (ilocLast ndays (stdSqCol close)).getD j FVal.nan =
      (stdSqCol close).getD (close.length - ndays + j) FVal.nan) ∧
    (∀ j : ℕ, (ilocLast ndays (rsiCol close)).getD j FVal.nan =
      (rsiCol close).getD (close.length - ndays + j) FVal.nan) ∧
    (∀ j : ℕ, (ilocLast ndays (macdCol close)).getD j 0 =
      (macdCol close).getD (close.length - ndays + j) 0) ∧
    (∀ j : ℕ, (ilocLast ndays (signalCol close)).getD j 0 =
      (signalCol close).getD (close.length - ndays + j) 0) ∧
    (∀ j : ℕ, (ilocLast ndays (histCol close)).getD j 0 =
      (histCol close).getD (close.length - ndays + j) 0) := by
  have hma := ma20Col_length close
  have hstd := stdSqCol_length close
  have hrsi := rsiCol_length close
  have hmacd := macdCol_length close
  have hsig := signalCol_length close
  have hhist := histCol_length close
  refine ⟨⟨ilocLast_length ndays close h1 h2,
      ilocLast_length _ _ h1 (by omega), ilocLast_length _ _ h1 (by omega),
      ilocLast_length _ _ h1 (by omega), ilocLast_length _ _ h1 (by omega),
      ilocLast_length _ _ h1 (by omega), ilocLast_length _ _ h1 (by omega)⟩,
    ?_, ?_, ?_, ?_, ?_, ?_, ?_, ?_⟩
  · intro sd hsd
    have hbu : (bbUpperCol (ma20Col close) sd).length = close.length := by
      rw [bbUpperCol, List.length_zipWith, hma, hsd]
      omega
    have hbl : (bbLowerCol (ma20Col close) sd).length = close.length := by
      rw [bbLowerCol, List.length_zipWith, hma, hsd]
      omega
    refine ⟨ilocLast_length _ _ h1 (by omega), ilocLast_length _ _ h1 (by omega),
      fun j => ?_, fun j => ?_⟩
    · rw [ilocLast_getD _ _ _ h1, hbu]
    · rw [ilocLast_getD _ _ _ h1, hbl]
  · intro j
    rw [ilocLast_getD _ _ _ h1]
  · intro j
    rw [ilocLast_getD _ _ _ h1, hma]
  · intro j
    rw [ilocLast_getD _ _ _ h1, hstd]
  · intro j
    rw [ilocLast_getD _ _ _ h1, hrsi]
  · intro j
    rw [ilocLast_getD _ _ _ h1, hmacd]
  · intro j
    rw [ilocLast_getD _ _ _ h1, hsig]
  · intro j
    rw [ilocLast_getD _ _ _ h1, hhist]

/-- Witness for C9 at the three-row series `[1, 2, 3]` with `ndays = 2`. -/
theorem truncate_after_compute_witness :
    ((1 : ℕ) ≤ 2) ∧ ((2 : ℕ) ≤ [(1 : ℚ), 2, 3].length) ∧
    (ilocLast 2 [(1 : ℚ), 2, 3]).length = 2 :=
  ⟨by decide, by decide,
    (truncate_after_compute ℚ [1, 2, 3] 2 (by decide) (by decide)).1.1⟩

theorem map_fmap_getD {K K' : Type} (f : K → K') (l : List (FVal K)) (i : ℕ) :
    (l.map (FVal.fmap f)).getD i FVal.nan = FVal.fmap f (l.getD i FVal.nan) := by
  rw [List.getD_eq_getElem?_getD, List.getElem?_map, List.getD_eq_getElem?_getD]
  cases l[i]? with
  | none => rfl
  | some v => rfl

theorem fadd_scale_val {K : Type} [LinearOrderedField K] (m s : K) :
    FVal.fadd (FVal.val m) (FVal.fscale 2 (FVal.val s)) = FVal.val (m + 2 * s) := rfl

theorem fsub_scale_val {K : Type} [LinearOrderedField K] (m s : K) :
    FVal.fsub (FVal.val m) (FVal.fscale 2 (FVal.val s)) = FVal.val (m - 2 * s) := by
  simp [FVal.fsub, FVal.fadd, FVal.fneg, FVal.fscale, sub_eq_add_neg]

theorem fscale_nan {K : Type} [LinearOrderedField K] (c : K) :
    FVal.fscale c (FVal.nan : FVal K) = FVal.nan := rfl

/-- C4: `MA20[i]` is undefined for `i < 19` and equals the arithmetic mean of
the trailing 20-row window for `19 ≤ i`; the std column (carried here through
its square `stdSqCol`) is defined on exactly the same indices and is the
nonnegative square root of the `ddof = 1` sample variance of the same window;
and wherever defined, `BB_Upper[i] = MA20[i] + 2*std[i]` and
`BB_Lower[i] = MA20[i] - 2*std[i]`. -/
theorem bollinger_band_formulas (xs : List ℝ) (i : ℕ) :
    ((ma20Col xs).getD i FVal.nan =
      if 20 ≤ i + 1 ∧ i < xs.length then FVal.val (mean (window 20 i xs))
      else FVal.nan) ∧
    ((stdSqCol xs).getD i FVal.nan =
      if 20 ≤ i + 1 ∧ i < xs.length then FVal.val (sampleVar (window 20 i xs))
      else FVal.nan) ∧
    ((window 20 i xs).length = min (i + 1) xs.length - (i + 1 - 20)) ∧
    (mean (window 20 i xs) =
      (window 20 i xs).sum / ((window 20 i xs).length : ℝ)) ∧
    (sampleVar (window 20 i xs) =
      ((window 20 i xs).map
        (fun x => (x - mean (window 20 i xs)) * (x - mean (window 20 i xs)))).sum /
        (((window 20 i xs).length : ℝ) - 1)) ∧
    (0 ≤ sampleVar (window 20 i xs)) ∧
    (0 ≤ Real.sqrt (sampleVar (window 20 i xs))) ∧
    (Real.sqrt (sampleVar (window 20 i xs)) * Real.sqrt (sampleVar (window 20 i xs)) =
      sampleVar (window 20 i xs)) ∧
    ((bbUpperCol (ma20Col xs) ((stdSqCol xs).map (FVal.fmap Real.sqrt))).getD i FVal.nan =
      if 20 ≤ i + 1 ∧ i < xs.length then
        FVal.val (mean (window 20 i xs) + 2 * Real.sqrt (sampleVar (window 20 i xs)))
      else FVal.nan) ∧
    ((bbLowerCol (ma20Col xs) ((stdSqCol xs).map (FVal.fmap Real.sqrt))).getD i FVal.nan =
      if 20 ≤ i + 1 ∧ i < xs.length then
        FVal.val (mean (window 20 i xs) - 2 * Real.sqrt (sampleVar (window 20 i xs)))
      else FVal.nan) := by
  have hmachar : (ma20Col xs).getD i FVal.nan =
      if 20 ≤ i + 1 ∧ i < xs.length then FVal.val (mean (window 20 i xs))
      else FVal.nan := by
    rw [ma20Col, rollingMean]
    exact rollingApply_getD 20 mean xs i
  have hstdchar : (stdSqCol xs).getD i FVal.nan =
      if 20 ≤ i + 1 ∧ i < xs.length then FVal.val (sampleVar (window 20 i xs))
      else FVal.nan := by
    rw [stdSqCol, rollingVarCol]
    exact rollingApply_getD 20 sampleVar xs i
  have hsdchar : ((stdSqCol xs).map (FVal.fmap Real.sqrt)).getD i FVal.nan =
      if 20 ≤ i + 1 ∧ i < xs.length then
        FVal.val (Real.sqrt (sampleVar (window 20 i xs)))
      else FVal.nan := by
    rw [map_fmap_getD, hstdchar]
    split <;> rfl
  have hsdlen : ((stdSqCol xs).map (FVal.fmap Real.sqrt)).length = xs.length := by
    rw [List.length_map, stdSqCol_length]
  refine ⟨hmachar, hstdchar, ?_, rfl, rfl, sampleVar_nonneg _, Real.sqrt_nonneg _,
    Real.mul_self_sqrt (sampleVar_nonneg _), ?_, ?_⟩
  · rw [window, List.length_drop, List.length_take]
  · rcases lt_or_le i xs.length with hlt | hge
    · rw [bbUpperCol, zipWith_getD _ _ _ i (by rw [ma20Col_length]; exact hlt)
        (by rw [hsdlen]; exact hlt) FVal.nan FVal.nan FVal.nan, hmachar, hsdchar]
      by_cases hc : 20 ≤ i + 1 ∧ i < xs.length
      · rw [if_pos hc, if_pos hc, if_pos hc, fadd_scale_val]
      · rw [if_neg hc, if_neg hc, if_neg hc, fscale_nan, fadd_nan_left]
    · rw [List.getD_eq_getElem?_getD, List.getElem?_eq_none
        (by rw [bbUpperCol, List.length_zipWith, ma20Col_length, hsdlen]; omega),
        if_neg (by omega)]
      rfl
  · rcases lt_or_le i xs.length with hlt | hge
    · rw [bbLowerCol, zipWith_getD _ _ _ i (by rw [ma20Col_length]; exact hlt)
        (by rw [hsdlen]; exact hlt) FVal.nan FVal.nan FVal.nan, hmachar, hsdchar]
      by_cases hc : 20 ≤ i + 1 ∧ i < xs.length
      · rw [if_pos hc, if_pos hc, if_pos hc, fsub_scale_val]
      · rw [if_neg hc, if_neg hc, if_neg hc, fscale_nan, fsub_nan_left]
    · rw [List.getD_eq_getElem?_getD, List.getElem?_eq_none
        (by rw [bbLowerCol, List.length_zipWith, ma20Col_length, hsdlen]; omega),
        if_neg (by omega)]
      rfl
